import Mathlib

/-!
Verification of the EDR state-diff merge engine (`crates/state/api/src/diff.rs`)
and the hardhat dump/load snapshot format
(`crates/edr_provider/src/requests/hardhat/rpc_types/state.rs`).

Hash maps are embedded as association lists with unique-key well-formedness
hypotheses where iteration order or key uniqueness matters; 256-bit words,
addresses and hashes are embedded as `Nat` (no arithmetic overflow is involved:
the merge engine only compares, stores and copies these values).
-/

namespace EdrState

/-- Lookup in an association list keyed by `Nat` (the embedding of
`HashMap::get`): returns the value at the first occurrence of the key. -/
def lookupA {V : Type} : List (Nat × V) → Nat → Option V
  | [], _ => none
  | (k, v) :: rest, k' => if k = k' then some v else lookupA rest k'

/-- The embedding of the `HashMap::entry(k).and_modify(f).or_insert(d)` API:
if the key is present, replace its value in place by `f`; otherwise append
`(k, d)`. -/
def entryApply {V : Type} : List (Nat × V) → Nat → (V → V) → V → List (Nat × V)
  | [], k, _, d => [(k, d)]
  | (k', v) :: rest, k, f, d =>
      if k' = k then (k', f v) :: rest else (k', v) :: entryApply rest k f d

/-- The embedding of `HashMap::insert`: set the key to the value,
overwriting any previous binding. -/
def setA {V : Type} (m : List (Nat × V)) (k : Nat) (v : V) : List (Nat × V) :=
  entryApply m k (fun _ => v) v

/-- The embedding of `HashMap::extend`: insert every binding of `foreign`
into `self`, foreign winning per key. -/
def extendA {V : Type} (self foreign : List (Nat × V)) : List (Nat × V) :=
  foreign.foldl (fun m p => setA m p.1 p.2) self

theorem lookupA_entryApply_self {V : Type} (m : List (Nat × V)) (k : Nat)
    (f : V → V) (d : V) :
    lookupA (entryApply m k f d) k =
      some (match lookupA m k with | some v => f v | none => d) := by
  induction m with
  | nil => simp [lookupA, entryApply]
  | cons p rest ih =>
      obtain ⟨k', v⟩ := p
      by_cases h : k' = k
      · subst h
        simp [lookupA, entryApply]
      · simp [lookupA, entryApply, h, ih]

theorem lookupA_entryApply_ne {V : Type} (m : List (Nat × V)) (k k' : Nat)
    (f : V → V) (d : V) (h : k' ≠ k) :
    lookupA (entryApply m k f d) k' = lookupA m k' := by
  have h' : ¬ (k = k') := fun hh => h hh.symm
  induction m with
  | nil => simp [lookupA, entryApply, h']
  | cons p rest ih =>
      obtain ⟨k₀, v⟩ := p
      by_cases h₀ : k₀ = k
      · subst h₀
        simp [lookupA, entryApply, h']
      · simp only [entryApply, if_neg h₀, lookupA, ih]

theorem lookupA_setA_self {V : Type} (m : List (Nat × V)) (k : Nat) (v : V) :
    lookupA (setA m k v) k = some v := by
  rw [setA, lookupA_entryApply_self]
  cases lookupA m k <;> rfl

theorem lookupA_setA_ne {V : Type} (m : List (Nat × V)) (k k' : Nat) (v : V)
    (h : k' ≠ k) : lookupA (setA m k v) k' = lookupA m k' :=
  lookupA_entryApply_ne m k k' _ v h

theorem lookupA_map_snd {V W : Type} (m : List (Nat × V)) (g : V → W) (k : Nat) :
    lookupA (m.map (fun p => (p.1, g p.2))) k = (lookupA m k).map g := by
  induction m with
  | nil => simp [lookupA]
  | cons p rest ih =>
      obtain ⟨k₀, v⟩ := p
      by_cases h : k₀ = k <;> simp [lookupA, h, ih]

theorem lookupA_eq_none_iff {V : Type} (m : List (Nat × V)) (k : Nat) :
    lookupA m k = none ↔ k ∉ m.map Prod.fst := by
  induction m with
  | nil => simp [lookupA]
  | cons p rest ih =>
      obtain ⟨k₀, v⟩ := p
      by_cases h : k₀ = k
      · subst h
        simp [lookupA]
      · have h' : ¬ (k = k₀) := fun hh => h hh.symm
        simp [lookupA, h, h', ih]

theorem lookupA_some_decomp {V : Type} (m : List (Nat × V)) (k : Nat) (v : V)
    (h : lookupA m k = some v) :
    ∃ pre post, m = pre ++ (k, v) :: post ∧ k ∉ pre.map Prod.fst := by
  induction m with
  | nil => simp [lookupA] at h
  | cons p rest ih =>
      obtain ⟨k₀, v₀⟩ := p
      by_cases h₀ : k₀ = k
      · subst h₀
        simp [lookupA] at h
        exact ⟨[], rest, by simp [h], by simp⟩
      · simp [lookupA, h₀] at h
        obtain ⟨pre, post, hm, hk⟩ := ih h
        refine ⟨(k₀, v₀) :: pre, post, by simp [hm], ?_⟩
        simp only [List.map_cons, List.mem_cons, not_or]
        exact ⟨fun hh => h₀ hh.symm, hk⟩

/-- Modelled from the spec: the canonical hash of the empty byte sequence
(`KECCAK_EMPTY` from `edr_primitives`, whose definition is not under `src/`);
its numeric value is the keccak-256 digest of the empty input. -/
def KECCAK_EMPTY : Nat :=
  0xc5d2460186f7233c927e7db2dcc703c0e500b653ca82273b7bfad8045d85a470

/-- Modelled from the spec: `AccountInfo` (from `crate::account`, not under
`src/`): balance, nonce, code hash, optional code bytes. -/
structure AccountInfo where
  balance : Nat
  nonce : Nat
  code_hash : Nat
  code : Option (List Nat)
  deriving DecidableEq, Repr

/-- Modelled from the spec: the zero-valued default `AccountInfo` used by
`account_info.unwrap_or_default()`: zero balance and nonce, empty-code hash,
no code. -/
def AccountInfo.default : AccountInfo :=
  { balance := 0, nonce := 0, code_hash := KECCAK_EMPTY, code := none }

/-- Modelled from the spec: `EvmStorageSlot` (not under `src/`); the merge
engine treats slots opaquely, so only the 256-bit value is carried. -/
structure EvmStorageSlot where
  value : Nat
  deriving DecidableEq, Repr

/-- Modelled from the spec: `AccountStatus` bit flags `{ Touched, Created }`. -/
structure AccountStatus where
  touched : Bool
  created : Bool
  deriving DecidableEq, Repr

/-- The `Touched` flag alone. -/
def AccountStatus.Touched : AccountStatus := ⟨true, false⟩

/-- The `Created` flag alone. -/
def AccountStatus.Created : AccountStatus := ⟨false, true⟩

/-- Modelled from the spec: bit-flag union, the meaning of both the `|`
operator and of `AccountStatus::insert` (which is union-assignment). -/
def AccountStatus.union (s other : AccountStatus) : AccountStatus :=
  ⟨s.touched || other.touched, s.created || other.created⟩

/-- Rust `status.insert(other)` on bit flags: union-assignment. -/
def AccountStatus.insert (s other : AccountStatus) : AccountStatus :=
  s.union other

/-- Modelled from the spec: `Account` (from `crate::account`, not under
`src/`): info, storage map, status flags, and the per-account ordering tag. -/
structure Account where
  info : AccountInfo
  storage : List (Nat × EvmStorageSlot)
  status : AccountStatus
  transaction_id : Nat
  deriving DecidableEq, Repr

/-- `StateDiff` from `crates/state/api/src/diff.rs`: a map from address to
`Account`. -/
structure StateDiff where
  inner : List (Nat × Account)
  deriving DecidableEq, Repr

/-- `StateDiff::default()`: the empty diff. -/
def StateDiff.empty : StateDiff := ⟨[]⟩

/-- `From<HashMap<Address, Account>> for StateDiff` in `diff.rs`. -/
def StateDiff.fromMap (value : List (Nat × Account)) : StateDiff := ⟨value⟩

/-- `account_has_code` from `diff.rs`: non-empty code hash. -/
def account_has_code (account_info : AccountInfo) : Bool :=
  account_info.code_hash != KECCAK_EMPTY

/-- `StateDiff::apply_account_change` from `diff.rs`. -/
def StateDiff.apply_account_change (self : StateDiff) (address : Nat)
    (account_info : AccountInfo) : StateDiff :=
  let new_account_has_code := account_has_code account_info
  ⟨entryApply self.inner address
    (fun account =>
      { account with
        status :=
          if new_account_has_code && !account_has_code account.info then
            account.status.insert AccountStatus.Created
          else
            account.status,
        info := account_info })
    { info := account_info
      storage := []
      status :=
        if new_account_has_code then
          AccountStatus.Created.union AccountStatus.Touched
        else
          AccountStatus.Touched
      transaction_id := 0 }⟩

/-- `StateDiff::apply_storage_change` from `diff.rs`. -/
def StateDiff.apply_storage_change (self : StateDiff) (address : Nat)
    (index : Nat) (slot : EvmStorageSlot) (account_info : Option AccountInfo) :
    StateDiff :=
  ⟨entryApply self.inner address
    (fun account => { account with storage := setA account.storage index slot })
    { info := account_info.getD AccountInfo.default
      storage := [(index, slot)]
      status := AccountStatus.Created.union AccountStatus.Touched
      transaction_id := 0 }⟩

/-- One iteration of the loop in `StateDiff::apply_diff`. -/
def applyDiffStep (self : StateDiff) (p : Nat × Account) : StateDiff :=
  ⟨entryApply self.inner p.1
    (fun account =>
      { account with
        info := p.2.info
        status := account.status.insert p.2.status
        storage := extendA account.storage p.2.storage })
    p.2⟩

/-- `StateDiff::apply_diff` from `diff.rs`: fold the foreign entries into
`self`, one address at a time. -/
def StateDiff.apply_diff (self : StateDiff) (diff : List (Nat × Account)) :
    StateDiff :=
  diff.foldl applyDiffStep self

/-- A single call against the merge engine: the two mutation entry points of
`StateDiff` used by state loading. -/
inductive DiffOp where
  | accountChange (address : Nat) (info : AccountInfo)
  | storageChange (address : Nat) (index : Nat) (slot : EvmStorageSlot)
      (info : Option AccountInfo)
  deriving DecidableEq, Repr

/-- The address a `DiffOp` targets. -/
def DiffOp.address : DiffOp → Nat
  | .accountChange a _ => a
  | .storageChange a _ _ _ => a

/-- Whether the op is an `apply_storage_change` call on address `a`. -/
def DiffOp.isStorageOn (a : Nat) : DiffOp → Bool
  | .storageChange b _ _ _ => b == a
  | .accountChange _ _ => false

/-- Execute one `DiffOp` against a diff. -/
def applyOp (d : StateDiff) : DiffOp → StateDiff
  | .accountChange a info => d.apply_account_change a info
  | .storageChange a i slot info => d.apply_storage_change a i slot info

/-- Execute a sequence of `DiffOp`s in order. -/
def applyOps (d : StateDiff) (ops : List DiffOp) : StateDiff :=
  ops.foldl applyOp d

/-- The account stored at the targeted address after
`apply_account_change`, as a function of the previously stored account. -/
def aacAcct : Option Account → AccountInfo → Account
  | some account, account_info =>
      { account with
        status :=
          if account_has_code account_info && !account_has_code account.info then
            account.status.insert AccountStatus.Created
          else
            account.status,
        info := account_info }
  | none, account_info =>
      { info := account_info
        storage := []
        status :=
          if account_has_code account_info then
            AccountStatus.Created.union AccountStatus.Touched
          else
            AccountStatus.Touched
        transaction_id := 0 }

/-- The account stored at the targeted address after
`apply_storage_change`, as a function of the previously stored account. -/
def ascAcct : Option Account → Nat → EvmStorageSlot → Option AccountInfo →
    Account
  | some account, index, slot, _ =>
      { account with storage := setA account.storage index slot }
  | none, index, slot, account_info =>
      { info := account_info.getD AccountInfo.default
        storage := [(index, slot)]
        status := AccountStatus.Created.union AccountStatus.Touched
        transaction_id := 0 }

theorem aac_lookup_self (d : StateDiff) (a : Nat) (I : AccountInfo) :
    lookupA (d.apply_account_change a I).inner a =
      some (aacAcct (lookupA d.inner a) I) := by
  rw [StateDiff.apply_account_change]
  simp only [lookupA_entryApply_self]
  cases lookupA d.inner a <;> rfl

theorem aac_lookup_ne (d : StateDiff) (a b : Nat) (I : AccountInfo)
    (h : b ≠ a) :
    lookupA (d.apply_account_change a I).inner b = lookupA d.inner b := by
  rw [StateDiff.apply_account_change]
  exact lookupA_entryApply_ne _ _ _ _ _ h

theorem asc_lookup_self (d : StateDiff) (a i : Nat) (sl : EvmStorageSlot)
    (oi : Option AccountInfo) :
    lookupA (d.apply_storage_change a i sl oi).inner a =
      some (ascAcct (lookupA d.inner a) i sl oi) := by
  rw [StateDiff.apply_storage_change]
  simp only [lookupA_entryApply_self]
  cases lookupA d.inner a <;> rfl

theorem asc_lookup_ne (d : StateDiff) (a b i : Nat) (sl : EvmStorageSlot)
    (oi : Option AccountInfo) (h : b ≠ a) :
    lookupA (d.apply_storage_change a i sl oi).inner b = lookupA d.inner b := by
  rw [StateDiff.apply_storage_change]
  exact lookupA_entryApply_ne _ _ _ _ _ h

theorem applyOp_lookup_self (d : StateDiff) (o : DiffOp) :
    lookupA (applyOp d o).inner o.address =
      some (match o with
        | .accountChange _ I => aacAcct (lookupA d.inner o.address) I
        | .storageChange _ i sl oi =>
            ascAcct (lookupA d.inner o.address) i sl oi) := by
  cases o with
  | accountChange a I => exact aac_lookup_self d a I
  | storageChange a i sl oi => exact asc_lookup_self d a i sl oi

theorem applyOp_lookup_ne (d : StateDiff) (o : DiffOp) (b : Nat)
    (h : b ≠ o.address) :
    lookupA (applyOp d o).inner b = lookupA d.inner b := by
  cases o with
  | accountChange a I => exact aac_lookup_ne d a b I h
  | storageChange a i sl oi => exact asc_lookup_ne d a b i sl oi h

theorem applyOps_append (d : StateDiff) (l₁ l₂ : List DiffOp) :
    applyOps d (l₁ ++ l₂) = applyOps (applyOps d l₁) l₂ :=
  List.foldl_append _ _ _ _

theorem applyOps_frame (d : StateDiff) (ops : List DiffOp) (a : Nat)
    (h : ∀ o ∈ ops, DiffOp.address o ≠ a) :
    lookupA (applyOps d ops).inner a = lookupA d.inner a := by
  induction ops generalizing d with
  | nil => rfl
  | cons o rest ih =>
      have h₀ : a ≠ o.address := fun hh => h o (by simp) hh.symm
      calc lookupA (applyOps (applyOp d o) rest).inner a
          = lookupA (applyOp d o).inner a := ih _ (fun o' ho' => h o' (by simp [ho']))
        _ = lookupA d.inner a := applyOp_lookup_ne d o a h₀

theorem applyOp_present (d : StateDiff) (o : DiffOp) (a : Nat) (acct : Account)
    (h : lookupA d.inner a = some acct) :
    ∃ acct', lookupA (applyOp d o).inner a = some acct' := by
  by_cases ha : a = o.address
  · subst ha
    exact ⟨_, applyOp_lookup_self d o⟩
  · exact ⟨acct, by rw [applyOp_lookup_ne d o a ha, h]⟩

theorem applyOps_present (d : StateDiff) (ops : List DiffOp) (a : Nat)
    (acct : Account) (h : lookupA d.inner a = some acct) :
    ∃ acct', lookupA (applyOps d ops).inner a = some acct' := by
  induction ops generalizing d acct with
  | nil => exact ⟨acct, h⟩
  | cons o rest ih =>
      obtain ⟨acct₁, h₁⟩ := applyOp_present d o a acct h
      exact ih _ _ h₁

theorem applyOps_none (d : StateDiff) (ops : List DiffOp) (a : Nat)
    (h : lookupA (applyOps d ops).inner a = none) : lookupA d.inner a = none := by
  cases hd : lookupA d.inner a with
  | none => rfl
  | some acct =>
      obtain ⟨acct', h'⟩ := applyOps_present d ops a acct hd
      rw [h'] at h
      cases h

/-- Whether the diff currently stores, at `a`, an account whose info has
non-empty code. -/
def heldCode (d : StateDiff) (a : Nat) : Bool :=
  match lookupA d.inner a with
  | some acct => account_has_code acct.info
  | none => false

/-- At some point while replaying `ops` from the empty diff, address `a`
held or acquired non-empty code: some stored `AccountInfo` for it had a
code hash different from the empty-code hash. -/
def everHeldCode (ops : List DiffOp) (a : Nat) : Prop :=
  ∃ p s, ops = p ++ s ∧ heldCode (applyOps StateDiff.empty p) a = true

/-- Address `a` was first inserted into the diff by an
`apply_storage_change` call: some storage-change op on `a` executed while
`a` was absent. -/
def introducedByStorage (ops : List DiffOp) (a : Nat) : Prop :=
  ∃ p i sl oi s, ops = p ++ DiffOp.storageChange a i sl oi :: s ∧
    lookupA (applyOps StateDiff.empty p).inner a = none

theorem heldCode_some (d : StateDiff) (a : Nat) (acct : Account)
    (h : lookupA d.inner a = some acct) :
    heldCode d a = account_has_code acct.info := by
  rw [heldCode, h]

theorem heldCode_none (d : StateDiff) (a : Nat)
    (h : lookupA d.inner a = none) : heldCode d a = false := by
  rw [heldCode, h]

theorem everHeldCode_of_heldCode (ops : List DiffOp) (a : Nat)
    (h : heldCode (applyOps StateDiff.empty ops) a = true) :
    everHeldCode ops a :=
  ⟨ops, [], (List.append_nil _).symm, h⟩

theorem everHeldCode_append_singleton (ops : List DiffOp) (o : DiffOp)
    (a : Nat) :
    everHeldCode (ops ++ [o]) a ↔
      everHeldCode ops a ∨
        heldCode (applyOps StateDiff.empty (ops ++ [o])) a = true := by
  constructor
  · rintro ⟨p, s, h, hc⟩
    rcases List.eq_nil_or_concat s with hs | ⟨s', b, hs⟩
    · subst hs
      right
      rw [List.append_nil] at h
      rw [h]
      exact hc
    · subst hs
      rw [List.concat_eq_append, ← List.append_assoc] at h
      obtain ⟨h₁, _⟩ := List.append_inj' h rfl
      exact Or.inl ⟨p, s', h₁, hc⟩
  · rintro (⟨p, s, h, hc⟩ | hc)
    · exact ⟨p, s ++ [o], by rw [h, List.append_assoc], hc⟩
    · exact ⟨ops ++ [o], [], (List.append_nil _).symm, hc⟩

theorem introducedByStorage_append_singleton (ops : List DiffOp) (o : DiffOp)
    (a : Nat) :
    introducedByStorage (ops ++ [o]) a ↔
      introducedByStorage ops a ∨
        ((∃ i sl oi, o = DiffOp.storageChange a i sl oi) ∧
          lookupA (applyOps StateDiff.empty ops).inner a = none) := by
  constructor
  · rintro ⟨p, i, sl, oi, s, h, hn⟩
    rcases List.eq_nil_or_concat s with hs | ⟨s', b, hs⟩
    · subst hs
      have h' : ops ++ [o] = p ++ [DiffOp.storageChange a i sl oi] := h
      obtain ⟨h₁, h₂⟩ := List.append_inj' h' rfl
      subst h₁
      right
      refine ⟨⟨i, sl, oi, ?_⟩, hn⟩
      injection h₂ with h₂
    · subst hs
      rw [List.concat_eq_append] at h
      have h' : ops ++ [o] =
          (p ++ DiffOp.storageChange a i sl oi :: s') ++ [b] := by
        rw [h]
        simp
      obtain ⟨h₁, _⟩ := List.append_inj' h' rfl
      exact Or.inl ⟨p, i, sl, oi, s', h₁, hn⟩
  · rintro (⟨p, i, sl, oi, s, h, hn⟩ | ⟨⟨i, sl, oi, ho⟩, hn⟩)
    · exact ⟨p, i, sl, oi, s ++ [o], by rw [h]; simp, hn⟩
    · exact ⟨ops, i, sl, oi, [], by rw [ho], hn⟩

theorem aacAcct_info (prev : Option Account) (I : AccountInfo) :
    (aacAcct prev I).info = I := by
  cases prev <;> rfl

/-- Every account stored in a diff satisfying `touchedOK` has the `Touched`
flag; this is the inductive invariant behind C10. -/
def touchedOK (d : StateDiff) : Prop :=
  ∀ a acct, lookupA d.inner a = some acct → acct.status.touched = true

/-- Every stored account whose info has code has the `Created` flag; the
inductive invariant linking code presence to the `Created` flag. -/
def codeOK (d : StateDiff) : Prop :=
  ∀ a acct, lookupA d.inner a = some acct →
    account_has_code acct.info = true → acct.status.created = true

theorem touchedOK_applyOp (d : StateDiff) (o : DiffOp) (h : touchedOK d) :
    touchedOK (applyOp d o) := by
  intro a acct ha
  by_cases hao : a = o.address
  · subst hao
    rw [applyOp_lookup_self d o] at ha
    injection ha with ha
    subst ha
    cases o with
    | accountChange b I =>
        cases hl : lookupA d.inner (DiffOp.accountChange b I).address with
        | none =>
            cases hc : account_has_code I <;>
              simp [aacAcct, hl, hc, AccountStatus.Touched, AccountStatus.union,
                AccountStatus.Created]
        | some acct₀ =>
            have ht := h _ _ hl
            cases hc : account_has_code I && !account_has_code acct₀.info <;>
              simp [aacAcct, hl, hc, AccountStatus.insert, AccountStatus.union,
                AccountStatus.Created, ht]
    | storageChange b i sl oi =>
        cases hl : lookupA d.inner (DiffOp.storageChange b i sl oi).address with
        | none =>
            simp [ascAcct, hl, AccountStatus.Touched, AccountStatus.union,
              AccountStatus.Created]
        | some acct₀ =>
            have ht := h _ _ hl
            simp [ascAcct, hl, ht]
  · rw [applyOp_lookup_ne d o a hao] at ha
    exact h _ _ ha

theorem codeOK_applyOp (d : StateDiff) (o : DiffOp) (h : codeOK d) :
    codeOK (applyOp d o) := by
  intro a acct ha hcode
  by_cases hao : a = o.address
  · subst hao
    rw [applyOp_lookup_self d o] at ha
    injection ha with ha
    subst ha
    cases o with
    | accountChange b I =>
        rw [aacAcct_info] at hcode
        cases hl : lookupA d.inner (DiffOp.accountChange b I).address with
        | none =>
            simp [aacAcct, hl, hcode, AccountStatus.Touched, AccountStatus.union,
              AccountStatus.Created]
        | some acct₀ =>
            cases hc₀ : account_has_code acct₀.info with
            | false =>
                simp [aacAcct, hl, hcode, hc₀, AccountStatus.insert,
                  AccountStatus.union, AccountStatus.Created]
            | true =>
                have := h _ _ hl hc₀
                simp [aacAcct, hl, hcode, hc₀, AccountStatus.insert,
                  AccountStatus.union, AccountStatus.Created, this]
    | storageChange b i sl oi =>
        cases hl : lookupA d.inner (DiffOp.storageChange b i sl oi).address with
        | none =>
            simp [ascAcct, hl, AccountStatus.Touched, AccountStatus.union,
              AccountStatus.Created]
        | some acct₀ =>
            have : account_has_code acct₀.info = true := by
              simpa [ascAcct, hl] using hcode
            have := h _ _ hl this
            simp [ascAcct, hl, this]
  · rw [applyOp_lookup_ne d o a hao] at ha
    exact h _ _ ha hcode

theorem touchedOK_applyOps (d : StateDiff) (ops : List DiffOp)
    (h : touchedOK d) : touchedOK (applyOps d ops) := by
  induction ops generalizing d with
  | nil => exact h
  | cons o rest ih => exact ih _ (touchedOK_applyOp d o h)

theorem codeOK_applyOps (d : StateDiff) (ops : List DiffOp)
    (h : codeOK d) : codeOK (applyOps d ops) := by
  induction ops generalizing d with
  | nil => exact h
  | cons o rest ih => exact ih _ (codeOK_applyOp d o h)

theorem touchedOK_empty : touchedOK StateDiff.empty := by
  intro a acct h
  cases h

theorem codeOK_empty : codeOK StateDiff.empty := by
  intro a acct h
  cases h

/-- Characterization of the `Created` flag for diffs built from empty using
only `apply_account_change` and `apply_storage_change`: the flag is set
exactly when the address held code at some point, or was first inserted by a
storage change. -/
theorem created_char (ops : List DiffOp) (a : Nat) :
    (lookupA (applyOps StateDiff.empty ops).inner a = none →
      ¬ everHeldCode ops a ∧ ¬ introducedByStorage ops a) ∧
    (∀ acct, lookupA (applyOps StateDiff.empty ops).inner a = some acct →
      (acct.status.created = true ↔
        everHeldCode ops a ∨ introducedByStorage ops a)) := by
  induction ops using List.reverseRecOn with
  | nil =>
      constructor
      · intro _
        constructor
        · rintro ⟨p, s, hps, hc⟩
          have hp : p = [] := (List.append_eq_nil.mp hps.symm).1
          subst hp
          simp [applyOps, heldCode, StateDiff.empty, lookupA] at hc
        · rintro ⟨p, i, sl, oi, s, hps, _⟩
          cases p <;> simp at hps
      · intro acct h
        simp [applyOps, StateDiff.empty, lookupA] at h
  | append_singleton l o ih =>
      have happ : applyOps StateDiff.empty (l ++ [o]) =
          applyOp (applyOps StateDiff.empty l) o := by
        rw [applyOps_append]
        rfl
      by_cases hao : a = o.address
      · -- the final op targets a: the address is present afterwards
        constructor
        · intro hnone
          rw [happ, hao, applyOp_lookup_self] at hnone
          cases hnone
        · intro acct hacct
          rw [happ, hao, applyOp_lookup_self] at hacct
          injection hacct with hacct
          rw [everHeldCode_append_singleton, introducedByStorage_append_singleton]
          have hheld' : heldCode (applyOps StateDiff.empty (l ++ [o])) a =
              account_has_code acct.info := by
            apply heldCode_some
            rw [happ, hao, applyOp_lookup_self, hacct]
          cases o with
          | accountChange b I =>
              have hab : a = b := hao
              subst hab
              have hacct' :
                  aacAcct (lookupA (applyOps StateDiff.empty l).inner a) I =
                    acct := hacct
              have hinfo : acct.info = I := by rw [← hacct', aacAcct_info]
              cases hl : lookupA (applyOps StateDiff.empty l).inner a with
              | none =>
                  obtain ⟨hne, hni⟩ := ih.1 hl
                  rw [hl] at hacct'
                  have hcr : acct.status.created = account_has_code I := by
                    rw [← hacct']
                    cases hc : account_has_code I <;>
                      simp [aacAcct, hc, AccountStatus.Touched,
                        AccountStatus.union, AccountStatus.Created]
                  rw [hcr, hheld', hinfo]
                  constructor
                  · intro hc
                    exact Or.inl (Or.inr hc)
                  · rintro ((he | hc) | (hi | ⟨⟨i, sl, oi, ho⟩, _⟩))
                    · exact absurd he hne
                    · exact hc
                    · exact absurd hi hni
                    · cases ho
              | some acct₀ =>
                  have hih := ih.2 acct₀ hl
                  rw [hl] at hacct'
                  have hheldl : account_has_code acct₀.info = true →
                      everHeldCode l a := by
                    intro hc
                    exact everHeldCode_of_heldCode l a
                      (by rw [heldCode_some _ _ _ hl, hc])
                  rw [hheld', hinfo]
                  cases hcI : account_has_code I with
                  | false =>
                      have hcr : acct.status.created = acct₀.status.created := by
                        rw [← hacct']
                        simp [aacAcct, hcI]
                      rw [hcr, hih]
                      constructor
                      · rintro (he | hi)
                        · exact Or.inl (Or.inl he)
                        · exact Or.inr (Or.inl hi)
                      · rintro ((he | hc) | (hi | ⟨⟨i, sl, oi, ho⟩, _⟩))
                        · exact Or.inl he
                        · cases hc
                        · exact Or.inr hi
                        · cases ho
                  | true =>
                      cases hc₀ : account_has_code acct₀.info with
                      | false =>
                          have hcr : acct.status.created = true := by
                            rw [← hacct']
                            simp [aacAcct, hcI, hc₀, AccountStatus.insert,
                              AccountStatus.union, AccountStatus.Created]
                          rw [hcr]
                          simp
                      | true =>
                          have he : everHeldCode l a := hheldl hc₀
                          have hcr : acct.status.created = true := by
                            rw [← hacct']
                            simp [aacAcct, hcI, hc₀, hih.mpr (Or.inl he)]
                          rw [hcr]
                          simp [he]
          | storageChange b i sl oi =>
              have hab : a = b := hao
              subst hab
              have hacct' :
                  ascAcct (lookupA (applyOps StateDiff.empty l).inner a) i sl oi =
                    acct := hacct
              cases hl : lookupA (applyOps StateDiff.empty l).inner a with
              | none =>
                  rw [hl] at hacct'
                  have hcr : acct.status.created = true := by
                    rw [← hacct']
                    simp [ascAcct, AccountStatus.union, AccountStatus.Created,
                      AccountStatus.Touched]
                  rw [hcr]
                  constructor
                  · intro _
                    exact Or.inr (Or.inr ⟨⟨i, sl, oi, rfl⟩, rfl⟩)
                  · intro _
                    rfl
              | some acct₀ =>
                  have hih := ih.2 acct₀ hl
                  rw [hl] at hacct'
                  have hinfo : acct.info = acct₀.info := by
                    rw [← hacct']
                    exact rfl
                  have hcr : acct.status.created = acct₀.status.created := by
                    rw [← hacct']
                    exact rfl
                  have hheldl : account_has_code acct₀.info = true →
                      everHeldCode l a := by
                    intro hc
                    exact everHeldCode_of_heldCode l a
                      (by rw [heldCode_some _ _ _ hl, hc])
                  rw [hcr, hih, hheld', hinfo]
                  constructor
                  · rintro (he | hi)
                    · exact Or.inl (Or.inl he)
                    · exact Or.inr (Or.inl hi)
                  · rintro ((he | hc) | (hi | ⟨_, hn⟩))
                    · exact Or.inl he
                    · exact Or.inl (hheldl hc)
                    · exact Or.inr hi
                    · cases hn
      · -- the final op targets another address: nothing changes at a
        have hlook : lookupA (applyOps StateDiff.empty (l ++ [o])).inner a =
            lookupA (applyOps StateDiff.empty l).inner a := by
          rw [happ]
          exact applyOp_lookup_ne _ o a hao
        have hstorage : ¬ ((∃ i sl oi, o = DiffOp.storageChange a i sl oi) ∧
            lookupA (applyOps StateDiff.empty l).inner a = none) := by
          rintro ⟨⟨i, sl, oi, ho⟩, _⟩
          subst ho
          exact hao rfl
        constructor
        · intro hnone
          rw [hlook] at hnone
          obtain ⟨hne, hni⟩ := ih.1 hnone
          constructor
          · rw [everHeldCode_append_singleton]
            rintro (he | hc)
            · exact hne he
            · rw [heldCode, hlook, hnone] at hc
              cases hc
          · rw [introducedByStorage_append_singleton]
            rintro (hi | hbad)
            · exact hni hi
            · exact hstorage hbad
        · intro acct hacct
          rw [hlook] at hacct
          have hih := ih.2 acct hacct
          rw [everHeldCode_append_singleton, introducedByStorage_append_singleton,
            hih]
          have hheld : heldCode (applyOps StateDiff.empty (l ++ [o])) a = true →
              everHeldCode l a := by
            intro hc
            rw [heldCode, hlook, hacct] at hc
            exact everHeldCode_of_heldCode l a
              (by rw [heldCode_some _ _ _ hacct]; exact hc)
          constructor
          · rintro (he | hi)
            · exact Or.inl (Or.inl he)
            · exact Or.inr (Or.inl hi)
          · rintro ((he | hc) | (hi | hbad))
            · exact Or.inl he
            · exact Or.inl (hheld hc)
            · exact Or.inr hi
            · exact absurd hbad hstorage

theorem lookupA_empty (a : Nat) : lookupA StateDiff.empty.inner a = none := rfl

theorem everHeldCode_nil (a : Nat) : ¬ everHeldCode [] a := by
  rintro ⟨p, s, hps, hc⟩
  have hp : p = [] := (List.append_eq_nil.mp hps.symm).1
  subst hp
  simp [heldCode, applyOps, StateDiff.empty, lookupA] at hc

/-- A sample contract-like `AccountInfo` (non-empty code hash). -/
def infoWithCode : AccountInfo :=
  { balance := 1000, nonce := 1, code_hash := 7, code := some [96, 0, 96, 0, 243] }

/-- A second, distinct contract-like `AccountInfo`. -/
def infoWithCode2 : AccountInfo :=
  { balance := 2000, nonce := 2, code_hash := 9, code := some [96, 1, 96, 0, 243] }

/-- A sample EOA-like `AccountInfo` (empty code hash, no code). -/
def infoNoCode : AccountInfo :=
  { balance := 1000, nonce := 0, code_hash := KECCAK_EMPTY, code := none }

/-- Helper behind C8 and C2: replaying any op sequence from empty whose ops
include an `apply_account_change` on `a` carrying code leaves `a` present
with the `Created` flag set. -/
theorem mem_code_created (ops : List DiffOp) (a : Nat) (I : AccountInfo)
    (hmem : DiffOp.accountChange a I ∈ ops)
    (hcode : account_has_code I = true) :
    ∃ acct, lookupA (applyOps StateDiff.empty ops).inner a = some acct ∧
      acct.status.created = true := by
  obtain ⟨p, s, hps⟩ := List.append_of_mem hmem
  subst hps
  have h₁ : lookupA (applyOps StateDiff.empty
      (p ++ [DiffOp.accountChange a I])).inner a =
      some (aacAcct (lookupA (applyOps StateDiff.empty p).inner a) I) := by
    rw [applyOps_append]
    exact aac_lookup_self _ a I
  have hheld : everHeldCode (p ++ DiffOp.accountChange a I :: s) a := by
    refine ⟨p ++ [DiffOp.accountChange a I], s, by simp, ?_⟩
    rw [heldCode_some _ _ _ h₁, aacAcct_info]
    exact hcode
  have hsplit : p ++ DiffOp.accountChange a I :: s =
      (p ++ [DiffOp.accountChange a I]) ++ s := by simp
  have hpres : ∃ acct', lookupA (applyOps StateDiff.empty
      (p ++ DiffOp.accountChange a I :: s)).inner a = some acct' := by
    rw [hsplit, applyOps_append]
    exact applyOps_present _ s a _ h₁
  obtain ⟨acct, hacct⟩ := hpres
  exact ⟨acct, hacct,
    ((created_char _ a).2 acct hacct).mpr (Or.inl hheld)⟩

/-- C1 counterexample: A single `apply_storage_change` on a fresh
address sets `Created` although the address never held non-empty code, so
`Created` is not equivalent to having held code. -/
theorem c1_created_iff_code_counterexample :
    (lookupA (applyOps StateDiff.empty
        [DiffOp.storageChange 1 0 ⟨42⟩ none]).inner 1).map
      (fun acct => acct.status.created) = some true ∧
    ¬ everHeldCode [DiffOp.storageChange 1 0 ⟨42⟩ none] 1 := by
  constructor
  · decide
  · intro he
    rw [show ([DiffOp.storageChange 1 0 ⟨42⟩ none] : List DiffOp) =
        [] ++ [DiffOp.storageChange 1 0 ⟨42⟩ none] from rfl,
      everHeldCode_append_singleton] at he
    rcases he with he | hc
    · exact everHeldCode_nil 1 he
    · exact absurd hc (by decide)

/-- C1 (amended): For a diff built from empty by `apply_account_change`
and `apply_storage_change` calls, an address's status contains `Created` iff
the address held non-empty code at some point during the sequence, or the
address was first inserted by an `apply_storage_change` call. -/
theorem c1_created_iff_code_amended (ops : List DiffOp) (a : Nat)
    (acct : Account)
    (h : lookupA (applyOps StateDiff.empty ops).inner a = some acct) :
    acct.status.created = true ↔
      everHeldCode ops a ∨ introducedByStorage ops a :=
  (created_char ops a).2 acct h

/-- Witness for C1 (amended) at a concrete input. -/
theorem c1_created_iff_code_amended_witness :
    lookupA (applyOps StateDiff.empty
        [DiffOp.accountChange 1 infoWithCode]).inner 1 =
      some { info := infoWithCode, storage := [],
             status := { touched := true, created := true },
             transaction_id := 0 } ∧
    (({ info := infoWithCode, storage := [],
        status := { touched := true, created := true },
        transaction_id := 0 } : Account).status.created = true ↔
      everHeldCode [DiffOp.accountChange 1 infoWithCode] 1 ∨
        introducedByStorage [DiffOp.accountChange 1 infoWithCode] 1) :=
  ⟨by decide, c1_created_iff_code_amended _ 1 _ (by decide)⟩

/-- C8: Any interleaving of `apply_account_change`/`apply_storage_change`
calls from empty that includes an account change on `a` with non-empty code
leaves `a`'s final status containing `Created`. -/
theorem c8_interleaving_code_creates (ops : List DiffOp) (a : Nat)
    (I : AccountInfo) (hmem : DiffOp.accountChange a I ∈ ops)
    (hcode : account_has_code I = true) :
    ∃ acct, lookupA (applyOps StateDiff.empty ops).inner a = some acct ∧
      acct.status.created = true :=
  mem_code_created ops a I hmem hcode

/-- Witness for C8 at a concrete input. -/
theorem c8_interleaving_code_creates_witness :
    DiffOp.accountChange 1 infoWithCode ∈
        [DiffOp.storageChange 2 0 ⟨42⟩ none,
         DiffOp.accountChange 1 infoWithCode] ∧
    account_has_code infoWithCode = true ∧
    ∃ acct, lookupA (applyOps StateDiff.empty
        [DiffOp.storageChange 2 0 ⟨42⟩ none,
         DiffOp.accountChange 1 infoWithCode]).inner 1 = some acct ∧
      acct.status.created = true :=
  ⟨by decide, by decide,
    c8_interleaving_code_creates _ 1 infoWithCode (by decide) (by decide)⟩

/-- C10: Every account in a diff built from empty using only
`apply_account_change` and `apply_storage_change` has the `Touched` flag. -/
theorem c10_built_accounts_touched (ops : List DiffOp) (a : Nat)
    (acct : Account)
    (h : lookupA (applyOps StateDiff.empty ops).inner a = some acct) :
    acct.status.touched = true :=
  touchedOK_applyOps StateDiff.empty ops touchedOK_empty a acct h

/-- Witness for C10 at a concrete input. -/
theorem c10_built_accounts_touched_witness :
    lookupA (applyOps StateDiff.empty
        [DiffOp.storageChange 1 0 ⟨42⟩ none]).inner 1 =
      some { info := AccountInfo.default, storage := [(0, ⟨42⟩)],
             status := { touched := true, created := true },
             transaction_id := 0 } ∧
    ({ info := AccountInfo.default, storage := [(0, ⟨42⟩)],
       status := { touched := true, created := true },
       transaction_id := 0 } : Account).status.touched = true :=
  ⟨by decide,
    c10_built_accounts_touched [DiffOp.storageChange 1 0 ⟨42⟩ none] 1 _
      (by decide)⟩

/-- Status-flag inclusion: every flag set in `s` is set in `t`. -/
def AccountStatus.le (s t : AccountStatus) : Prop :=
  (s.touched = true → t.touched = true) ∧ (s.created = true → t.created = true)

theorem AccountStatus.le_refl (s : AccountStatus) : s.le s :=
  ⟨id, id⟩

theorem AccountStatus.le_trans {s t u : AccountStatus} (h₁ : s.le t)
    (h₂ : t.le u) : s.le u :=
  ⟨fun h => h₂.1 (h₁.1 h), fun h => h₂.2 (h₁.2 h)⟩

theorem AccountStatus.le_insert (s t : AccountStatus) : s.le (s.insert t) := by
  constructor <;> intro h <;>
    simp [AccountStatus.insert, AccountStatus.union, h]

/-- The account obtained by merging a foreign account into the value stored
at its address during `apply_diff`. -/
def mergeAcct : Option Account → Account → Account
  | some account, fa =>
      { account with
        info := fa.info
        status := account.status.insert fa.status
        storage := extendA account.storage fa.storage }
  | none, fa => fa

theorem diffStep_lookup_self (d : StateDiff) (p : Nat × Account) :
    lookupA (applyDiffStep d p).inner p.1 =
      some (mergeAcct (lookupA d.inner p.1) p.2) := by
  rw [applyDiffStep]
  simp only [lookupA_entryApply_self]
  cases lookupA d.inner p.1 <;> rfl

theorem diffStep_lookup_ne (d : StateDiff) (p : Nat × Account) (k : Nat)
    (h : k ≠ p.1) :
    lookupA (applyDiffStep d p).inner k = lookupA d.inner k := by
  rw [applyDiffStep]
  exact lookupA_entryApply_ne _ _ _ _ _ h

theorem diffStep_le (d : StateDiff) (p : Nat × Account) (a : Nat)
    (acct : Account) (h : lookupA d.inner a = some acct) :
    ∃ acct', lookupA (applyDiffStep d p).inner a = some acct' ∧
      acct.status.le acct'.status := by
  by_cases ha : a = p.1
  · subst ha
    rw [diffStep_lookup_self, h]
    exact ⟨_, rfl, AccountStatus.le_insert _ _⟩
  · rw [diffStep_lookup_ne d p a ha]
    exact ⟨acct, h, AccountStatus.le_refl _⟩

theorem apply_diff_le (d : StateDiff) (foreign : List (Nat × Account))
    (a : Nat) (acct : Account) (h : lookupA d.inner a = some acct) :
    ∃ acct', lookupA (d.apply_diff foreign).inner a = some acct' ∧
      acct.status.le acct'.status := by
  induction foreign generalizing d acct with
  | nil => exact ⟨acct, h, AccountStatus.le_refl _⟩
  | cons p rest ih =>
      obtain ⟨acct₁, h₁, hle₁⟩ := diffStep_le d p a acct h
      obtain ⟨acct', h', hle₂⟩ := ih (applyDiffStep d p) acct₁ h₁
      exact ⟨acct', h', AccountStatus.le_trans hle₁ hle₂⟩

/-- C7: Status flags already set on an address are preserved by every
single `apply_account_change`, `apply_storage_change`, and `apply_diff`
call: no operation ever clears a flag. -/
theorem c7_flags_never_cleared (d : StateDiff) (a : Nat) (acct : Account)
    (h : lookupA d.inner a = some acct) :
    (∀ b I, ∃ acct',
      lookupA (d.apply_account_change b I).inner a = some acct' ∧
        acct.status.le acct'.status) ∧
    (∀ b i sl oi, ∃ acct',
      lookupA (d.apply_storage_change b i sl oi).inner a = some acct' ∧
        acct.status.le acct'.status) ∧
    (∀ foreign, ∃ acct',
      lookupA (d.apply_diff foreign).inner a = some acct' ∧
        acct.status.le acct'.status) := by
  refine ⟨?_, ?_, fun foreign => apply_diff_le d foreign a acct h⟩
  · intro b I
    by_cases hb : a = b
    · subst hb
      rw [aac_lookup_self, h]
      refine ⟨_, rfl, ?_⟩
      by_cases hc : account_has_code I && !account_has_code acct.info
      · simp only [aacAcct, hc, if_true]
        exact AccountStatus.le_insert _ _
      · simp only [aacAcct, hc, if_false]
        exact AccountStatus.le_refl _
    · rw [aac_lookup_ne d b a I hb]
      exact ⟨acct, h, AccountStatus.le_refl _⟩
  · intro b i sl oi
    by_cases hb : a = b
    · subst hb
      rw [asc_lookup_self, h]
      exact ⟨_, rfl, AccountStatus.le_refl _⟩
    · rw [asc_lookup_ne d b a i sl oi hb]
      exact ⟨acct, h, AccountStatus.le_refl _⟩

/-- A sample EOA-like account with only the `Touched` flag. -/
def sampleAcct : Account :=
  { info := infoNoCode, storage := []
    status := { touched := true, created := false }, transaction_id := 0 }

/-- A sample EOA-like account with one storage entry and only `Touched`. -/
def sampleAcctStor : Account :=
  { info := infoNoCode, storage := [(5, ⟨7⟩)]
    status := { touched := true, created := false }, transaction_id := 0 }

/-- Witness for C7 at a concrete input. -/
theorem c7_flags_never_cleared_witness :
    lookupA (StateDiff.fromMap [(1, sampleAcct)]).inner 1 = some sampleAcct ∧
    ((∀ b I, ∃ acct',
      lookupA ((StateDiff.fromMap
          [(1, sampleAcct)]).apply_account_change b I).inner 1 =
        some acct' ∧ sampleAcct.status.le acct'.status) ∧
    (∀ b i sl oi, ∃ acct',
      lookupA ((StateDiff.fromMap
          [(1, sampleAcct)]).apply_storage_change b i sl oi).inner 1 =
        some acct' ∧ sampleAcct.status.le acct'.status) ∧
    (∀ foreign, ∃ acct',
      lookupA ((StateDiff.fromMap
          [(1, sampleAcct)]).apply_diff foreign).inner 1 =
        some acct' ∧ sampleAcct.status.le acct'.status)) :=
  ⟨by decide,
    c7_flags_never_cleared (StateDiff.fromMap [(1, sampleAcct)]) 1 sampleAcct
      (by decide)⟩

/-- C5: `apply_storage_change` on an absent address inserts an account
whose info is the supplied one (or the zero default), whose storage is
exactly `{index: slot}`, and whose status is exactly `Touched | Created`,
independent of code presence. -/
theorem c5_storage_change_absent (d : StateDiff) (a i : Nat)
    (sl : EvmStorageSlot) (oi : Option AccountInfo)
    (h : lookupA d.inner a = none) :
    lookupA (d.apply_storage_change a i sl oi).inner a =
      some { info := oi.getD AccountInfo.default, storage := [(i, sl)],
             status := { touched := true, created := true },
             transaction_id := 0 } := by
  rw [asc_lookup_self, h]
  rfl

/-- Witness for C5 at a concrete input. -/
theorem c5_storage_change_absent_witness :
    lookupA StateDiff.empty.inner 1 = none ∧
    lookupA (StateDiff.empty.apply_storage_change 1 0 ⟨42⟩ none).inner 1 =
      some { info := Option.none.getD AccountInfo.default,
             storage := [(0, ⟨42⟩)],
             status := { touched := true, created := true },
             transaction_id := 0 } :=
  ⟨rfl, c5_storage_change_absent StateDiff.empty 1 0 ⟨42⟩ none rfl⟩

/-- C9: `apply_storage_change` on a present address only overwrites that
account's storage entry at the given index: status, info, the other storage
entries, and every other address are unchanged. -/
theorem c9_storage_change_present_frame (d : StateDiff) (a i : Nat)
    (sl : EvmStorageSlot) (oi : Option AccountInfo) (acct : Account)
    (h : lookupA d.inner a = some acct) :
    (∃ acct', lookupA (d.apply_storage_change a i sl oi).inner a = some acct' ∧
      acct'.status = acct.status ∧ acct'.info = acct.info ∧
      acct'.transaction_id = acct.transaction_id ∧
      lookupA acct'.storage i = some sl ∧
      ∀ j, j ≠ i → lookupA acct'.storage j = lookupA acct.storage j) ∧
    ∀ b, b ≠ a → lookupA (d.apply_storage_change a i sl oi).inner b =
      lookupA d.inner b := by
  constructor
  · refine ⟨ascAcct (some acct) i sl oi, by rw [asc_lookup_self, h], rfl, rfl,
      rfl, ?_, ?_⟩
    · exact lookupA_setA_self acct.storage i sl
    · intro j hj
      exact lookupA_setA_ne acct.storage i j sl hj
  · intro b hb
    exact asc_lookup_ne d a b i sl oi hb

/-- Witness for C9 at a concrete input. -/
theorem c9_storage_change_present_frame_witness :
    lookupA (StateDiff.fromMap [(1, sampleAcctStor)]).inner 1 =
      some sampleAcctStor ∧
    ((∃ acct', lookupA ((StateDiff.fromMap
        [(1, sampleAcctStor)]).apply_storage_change 1 0 ⟨42⟩ none).inner 1 =
        some acct' ∧
      acct'.status = sampleAcctStor.status ∧
      acct'.info = sampleAcctStor.info ∧
      acct'.transaction_id = sampleAcctStor.transaction_id ∧
      lookupA acct'.storage 0 = some ⟨42⟩ ∧
      ∀ j, j ≠ 0 → lookupA acct'.storage j =
        lookupA sampleAcctStor.storage j) ∧
    ∀ b, b ≠ 1 → lookupA ((StateDiff.fromMap
        [(1, sampleAcctStor)]).apply_storage_change 1 0 ⟨42⟩ none).inner b =
      lookupA (StateDiff.fromMap [(1, sampleAcctStor)]).inner b) :=
  ⟨by decide,
    c9_storage_change_present_frame (StateDiff.fromMap [(1, sampleAcctStor)])
      1 0 ⟨42⟩ none sampleAcctStor (by decide)⟩

/-- An account whose info has code but whose status lacks `Created` — such
accounts can enter a `StateDiff` through `From<HashMap>` or `apply_diff`,
though never through the two apply operations from empty. -/
def codeNoCreatedAcct : Account :=
  { info := infoWithCode, storage := []
    status := { touched := true, created := false }, transaction_id := 0 }

/-- C4 counterexample: On a `StateDiff` (obtained via the public
`From<HashMap>` conversion) whose existing account has code but not
`Created`, `apply_account_change` with code-bearing info does NOT set
`Created`: the code tests whether the existing info has code, not whether
the flag is present. -/
theorem c4_account_change_code_counterexample :
    account_has_code infoWithCode2 = true ∧
    (lookupA ((StateDiff.fromMap
        [(1, codeNoCreatedAcct)]).apply_account_change 1
          infoWithCode2).inner 1).map
      (fun acct => acct.status.created) = some false := by
  constructor
  · decide
  · decide

/-- C4 (amended): For an existing account satisfying the has-code →
`Created` invariant (which holds for every diff built from empty via the
apply operations), `apply_account_change` with code-bearing info leaves the
status containing `Created`, unconditionally replaces the stored info, and
preserves `Touched`, storage, and the ordering tag; in particular an
account change without code followed by one with code yields exactly
`Touched | Created`. -/
theorem c4_account_change_code_amended (d : StateDiff) (a : Nat)
    (acct : Account) (I : AccountInfo)
    (h : lookupA d.inner a = some acct)
    (hcode : account_has_code I = true)
    (hwf : account_has_code acct.info = true → acct.status.created = true) :
    (∃ acct', lookupA (d.apply_account_change a I).inner a = some acct' ∧
      acct'.status.created = true ∧ acct'.info = I ∧
      acct'.status.touched = acct.status.touched ∧
      acct'.storage = acct.storage ∧
      acct'.transaction_id = acct.transaction_id) ∧
    (∀ b I₁ I₂, account_has_code I₁ = false → account_has_code I₂ = true →
      (lookupA ((StateDiff.empty.apply_account_change b
          I₁).apply_account_change b I₂).inner b).map Account.status =
        some { touched := true, created := true }) := by
  constructor
  · rw [aac_lookup_self, h]
    refine ⟨aacAcct (some acct) I, rfl, ?_, rfl, ?_, rfl, rfl⟩
    · cases hc₀ : account_has_code acct.info with
      | true =>
          simp [aacAcct, hcode, hc₀, hwf hc₀]
      | false =>
          simp [aacAcct, hcode, hc₀, AccountStatus.insert, AccountStatus.union,
            AccountStatus.Created]
    · cases hc₀ : account_has_code acct.info with
      | true => simp [aacAcct, hcode, hc₀]
      | false =>
          simp [aacAcct, hcode, hc₀, AccountStatus.insert, AccountStatus.union,
            AccountStatus.Created]
  · intro b I₁ I₂ h₁ h₂
    rw [aac_lookup_self, aac_lookup_self, lookupA_empty]
    simp [aacAcct, h₁, h₂, AccountStatus.insert, AccountStatus.union,
      AccountStatus.Created, AccountStatus.Touched]

/-- Witness for C4 (amended) at a concrete input. -/
theorem c4_account_change_code_amended_witness :
    lookupA (StateDiff.fromMap [(1, sampleAcct)]).inner 1 = some sampleAcct ∧
    account_has_code infoWithCode = true ∧
    (account_has_code sampleAcct.info = true →
      sampleAcct.status.created = true) ∧
    ((∃ acct', lookupA ((StateDiff.fromMap
        [(1, sampleAcct)]).apply_account_change 1 infoWithCode).inner 1 =
        some acct' ∧
      acct'.status.created = true ∧ acct'.info = infoWithCode ∧
      acct'.status.touched = sampleAcct.status.touched ∧
      acct'.storage = sampleAcct.storage ∧
      acct'.transaction_id = sampleAcct.transaction_id) ∧
    (∀ b I₁ I₂, account_has_code I₁ = false → account_has_code I₂ = true →
      (lookupA ((StateDiff.empty.apply_account_change b
          I₁).apply_account_change b I₂).inner b).map Account.status =
        some { touched := true, created := true })) :=
  ⟨by decide, by decide, by decide,
    c4_account_change_code_amended (StateDiff.fromMap [(1, sampleAcct)]) 1
      sampleAcct infoWithCode (by decide) (by decide) (by decide)⟩

/-- C2 counterexample: Replaying a resolved account state consisting of
a codeless info plus one storage entry gives different final status flags
for the two orders: account change first yields `Touched` only, storage
change first yields `Touched | Created`. -/
theorem c2_order_independent_counterexample :
    List.Perm [DiffOp.accountChange 1 infoNoCode,
        DiffOp.storageChange 1 0 ⟨42⟩ none]
      (DiffOp.accountChange 1 infoNoCode ::
        [DiffOp.storageChange 1 0 ⟨42⟩ none]) ∧
    List.Perm [DiffOp.storageChange 1 0 ⟨42⟩ none,
        DiffOp.accountChange 1 infoNoCode]
      (DiffOp.accountChange 1 infoNoCode ::
        [DiffOp.storageChange 1 0 ⟨42⟩ none]) ∧
    (∀ o ∈ [DiffOp.storageChange 1 0 ⟨42⟩ none],
      DiffOp.isStorageOn 1 o = true) ∧
    (lookupA (applyOps StateDiff.empty
        [DiffOp.accountChange 1 infoNoCode,
         DiffOp.storageChange 1 0 ⟨42⟩ none]).inner 1).map Account.status ≠
    (lookupA (applyOps StateDiff.empty
        [DiffOp.storageChange 1 0 ⟨42⟩ none,
         DiffOp.accountChange 1 infoNoCode]).inner 1).map Account.status := by
  refine ⟨by decide, by decide, by decide, by decide⟩

/-- C2 (amended): Replaying one resolved account (one account change
plus one storage change per entry, all on the same address) from empty
yields order-independent final status flags provided the account's info has
code or there are no storage entries. -/
theorem c2_order_independent_amended (a : Nat) (I : AccountInfo)
    (ascs : List DiffOp)
    (hall : ∀ o ∈ ascs, DiffOp.isStorageOn a o = true)
    (hcase : account_has_code I = true ∨ ascs = [])
    (l₁ l₂ : List DiffOp)
    (h₁ : l₁.Perm (DiffOp.accountChange a I :: ascs))
    (h₂ : l₂.Perm (DiffOp.accountChange a I :: ascs)) :
    (lookupA (applyOps StateDiff.empty l₁).inner a).map Account.status =
      (lookupA (applyOps StateDiff.empty l₂).inner a).map Account.status := by
  rcases hcase with hcode | hnil
  · have key : ∀ l, l.Perm (DiffOp.accountChange a I :: ascs) →
        (lookupA (applyOps StateDiff.empty l).inner a).map Account.status =
          some { touched := true, created := true } := by
      intro l hl
      have hmem : DiffOp.accountChange a I ∈ l :=
        hl.mem_iff.mpr (List.mem_cons_self _ _)
      obtain ⟨acct, hacct, hcr⟩ := mem_code_created l a I hmem hcode
      have ht : acct.status.touched = true :=
        touchedOK_applyOps StateDiff.empty l touchedOK_empty a acct hacct
      rw [hacct]
      rcases hq : acct.status with ⟨t, c⟩
      have ht' : t = true := by rw [hq] at ht; exact ht
      have hc' : c = true := by rw [hq] at hcr; exact hcr
      subst ht'
      subst hc'
      rw [Option.map_some', hq]
    rw [key l₁ h₁, key l₂ h₂]
  · subst hnil
    have e₁ : l₁ = [DiffOp.accountChange a I] := List.perm_singleton.mp h₁
    have e₂ : l₂ = [DiffOp.accountChange a I] := List.perm_singleton.mp h₂
    rw [e₁, e₂]

/-- Witness for C2 (amended) at a concrete input. -/
theorem c2_order_independent_amended_witness :
    (∀ o ∈ [DiffOp.storageChange 1 0 ⟨42⟩ none],
      DiffOp.isStorageOn 1 o = true) ∧
    (account_has_code infoWithCode = true ∨
      ([DiffOp.storageChange 1 0 ⟨42⟩ none] : List DiffOp) = []) ∧
    List.Perm [DiffOp.accountChange 1 infoWithCode,
        DiffOp.storageChange 1 0 ⟨42⟩ none]
      (DiffOp.accountChange 1 infoWithCode ::
        [DiffOp.storageChange 1 0 ⟨42⟩ none]) ∧
    List.Perm [DiffOp.storageChange 1 0 ⟨42⟩ none,
        DiffOp.accountChange 1 infoWithCode]
      (DiffOp.accountChange 1 infoWithCode ::
        [DiffOp.storageChange 1 0 ⟨42⟩ none]) ∧
    (lookupA (applyOps StateDiff.empty
        [DiffOp.accountChange 1 infoWithCode,
         DiffOp.storageChange 1 0 ⟨42⟩ none]).inner 1).map Account.status =
      (lookupA (applyOps StateDiff.empty
        [DiffOp.storageChange 1 0 ⟨42⟩ none,
         DiffOp.accountChange 1 infoWithCode]).inner 1).map Account.status :=
  ⟨by decide, Or.inl (by decide), by decide, by decide,
    c2_order_independent_amended 1 infoWithCode
      [DiffOp.storageChange 1 0 ⟨42⟩ none] (by decide) (Or.inl (by decide))
      _ _ (by decide) (by decide)⟩

theorem lookupA_extendA_not_mem {V : Type} (self foreign : List (Nat × V))
    (k : Nat) (h : k ∉ foreign.map Prod.fst) :
    lookupA (extendA self foreign) k = lookupA self k := by
  induction foreign generalizing self with
  | nil => rfl
  | cons p rest ih =>
      simp only [List.map_cons, List.mem_cons, not_or] at h
      rw [show extendA self (p :: rest) = extendA (setA self p.1 p.2) rest
          from rfl,
        ih _ h.2, lookupA_setA_ne _ _ _ _ h.1]

theorem lookupA_extendA_eq_some {V : Type} (self foreign : List (Nat × V))
    (k : Nat) (v : V) (hnd : (foreign.map Prod.fst).Nodup)
    (h : lookupA foreign k = some v) :
    lookupA (extendA self foreign) k = some v := by
  induction foreign generalizing self with
  | nil => cases h
  | cons p rest ih =>
      obtain ⟨k₀, v₀⟩ := p
      simp only [List.map_cons, List.nodup_cons] at hnd
      by_cases hk : k₀ = k
      · subst hk
        simp only [lookupA, if_pos rfl] at h
        injection h with h
        subst h
        rw [show extendA self ((k₀, v₀) :: rest) =
            extendA (setA self k₀ v₀) rest from rfl,
          lookupA_extendA_not_mem _ _ _ hnd.1, lookupA_setA_self]
      · simp only [lookupA, if_neg hk] at h
        rw [show extendA self ((k₀, v₀) :: rest) =
            extendA (setA self k₀ v₀) rest from rfl]
        exact ih (setA self k₀ v₀) hnd.2 h

theorem apply_diff_lookup_not_mem (d : StateDiff)
    (foreign : List (Nat × Account)) (a : Nat)
    (h : a ∉ foreign.map Prod.fst) :
    lookupA (d.apply_diff foreign).inner a = lookupA d.inner a := by
  induction foreign generalizing d with
  | nil => rfl
  | cons p rest ih =>
      simp only [List.map_cons, List.mem_cons, not_or] at h
      rw [show d.apply_diff (p :: rest) =
          (applyDiffStep d p).apply_diff rest from rfl,
        ih _ h.2, diffStep_lookup_ne d p a h.1]

theorem apply_diff_lookup (d : StateDiff) (foreign : List (Nat × Account))
    (a : Nat) (facct : Account) (hnd : (foreign.map Prod.fst).Nodup)
    (h : lookupA foreign a = some facct) :
    lookupA (d.apply_diff foreign).inner a =
      some (mergeAcct (lookupA d.inner a) facct) := by
  induction foreign generalizing d with
  | nil => cases h
  | cons p rest ih =>
      obtain ⟨b, bacct⟩ := p
      simp only [List.map_cons, List.nodup_cons] at hnd
      by_cases hb : b = a
      · rw [lookupA, if_pos hb] at h
        injection h with h
        rw [show d.apply_diff ((b, bacct) :: rest) =
            (applyDiffStep d (b, bacct)).apply_diff rest from rfl,
          apply_diff_lookup_not_mem _ _ a (hb ▸ hnd.1), ← h, ← hb]
        exact diffStep_lookup_self d (b, bacct)
      · rw [lookupA, if_neg hb] at h
        rw [show d.apply_diff ((b, bacct) :: rest) =
            (applyDiffStep d (b, bacct)).apply_diff rest from rfl,
          ih (applyDiffStep d (b, bacct)) hnd.2 h,
          diffStep_lookup_ne d (b, bacct) a (fun hh => hb hh.symm)]

/-- C6: `apply_diff` merges a foreign mapping: at an address present in
both, the result carries the foreign info, the union of the two status
sets, and self's storage overwritten per key by the foreign storage; at an
address present only in the foreign mapping, the foreign account is
inserted verbatim. -/
theorem c6_apply_diff_merge (d : StateDiff) (foreign : List (Nat × Account))
    (a : Nat) (facct : Account)
    (hnd : (foreign.map Prod.fst).Nodup)
    (hmem : lookupA foreign a = some facct)
    (hstor : (facct.storage.map Prod.fst).Nodup) :
    (∀ acct, lookupA d.inner a = some acct →
      ∃ acct', lookupA (d.apply_diff foreign).inner a = some acct' ∧
        acct'.info = facct.info ∧
        acct'.status = acct.status.union facct.status ∧
        acct'.transaction_id = acct.transaction_id ∧
        (∀ i, lookupA acct'.storage i =
          match lookupA facct.storage i with
          | some v => some v
          | none => lookupA acct.storage i)) ∧
    (lookupA d.inner a = none →
      lookupA (d.apply_diff foreign).inner a = some facct) := by
  constructor
  · intro acct hacct
    rw [apply_diff_lookup d foreign a facct hnd hmem, hacct]
    refine ⟨mergeAcct (some acct) facct, rfl, rfl, rfl, rfl, ?_⟩
    intro i
    cases hfi : lookupA facct.storage i with
    | some v =>
        exact lookupA_extendA_eq_some acct.storage facct.storage i v hstor hfi
    | none =>
        exact lookupA_extendA_not_mem acct.storage facct.storage i
          ((lookupA_eq_none_iff _ _).mp hfi)
  · intro hacct
    rw [apply_diff_lookup d foreign a facct hnd hmem, hacct]
    rfl

/-- A sample foreign account (with code, `Created | Touched`, storage at
indices 0 and 5). -/
def foreignAcct : Account :=
  { info := infoWithCode2, storage := [(0, ⟨100⟩), (5, ⟨200⟩)]
    status := { touched := true, created := true }, transaction_id := 0 }

/-- Witness for C6 at a concrete input. -/
theorem c6_apply_diff_merge_witness :
    (([(1, foreignAcct), (2, sampleAcct)] : List (Nat × Account)).map
      Prod.fst).Nodup ∧
    lookupA [(1, foreignAcct), (2, sampleAcct)] 1 = some foreignAcct ∧
    (foreignAcct.storage.map Prod.fst).Nodup ∧
    ((∀ acct, lookupA (StateDiff.fromMap [(1, sampleAcctStor)]).inner 1 =
        some acct →
      ∃ acct', lookupA ((StateDiff.fromMap
          [(1, sampleAcctStor)]).apply_diff
            [(1, foreignAcct), (2, sampleAcct)]).inner 1 = some acct' ∧
        acct'.info = foreignAcct.info ∧
        acct'.status = acct.status.union foreignAcct.status ∧
        acct'.transaction_id = acct.transaction_id ∧
        (∀ i, lookupA acct'.storage i =
          match lookupA foreignAcct.storage i with
          | some v => some v
          | none => lookupA acct.storage i)) ∧
    (lookupA (StateDiff.fromMap [(1, sampleAcctStor)]).inner 1 = none →
      lookupA ((StateDiff.fromMap [(1, sampleAcctStor)]).apply_diff
          [(1, foreignAcct), (2, sampleAcct)]).inner 1 = some foreignAcct)) :=
  ⟨by decide, by decide, by decide,
    c6_apply_diff_merge (StateDiff.fromMap [(1, sampleAcctStor)])
      [(1, foreignAcct), (2, sampleAcct)] 1 foreignAcct (by decide)
      (by decide) (by decide)⟩

/-- `StateAccount` from
`crates/edr_provider/src/requests/hardhat/rpc_types/state.rs`: the
Anvil-compatible per-account snapshot entry (balance, code bytes — empty
for EOAs —, nonce, storage slots). -/
structure StateAccount where
  balance : Nat
  code : List Nat
  nonce : Nat
  storage : List (Nat × Nat)
  deriving DecidableEq, Repr

/-- `StateDump` from the same file: map of address to account state. -/
structure StateDump where
  accounts : List (Nat × StateAccount)
  deriving DecidableEq, Repr

/-- `StateDump::new`. -/
def StateDump.new : StateDump := ⟨[]⟩

/-- `StateDump::add_account`: insert/replace into the address mapping. -/
def StateDump.add_account (self : StateDump) (address : Nat)
    (account : StateAccount) : StateDump :=
  ⟨setA self.accounts address account⟩

/-- The resolved code bytes of an `AccountInfo`: the stored code, or the
empty sequence when absent. -/
def resolvedCode (info : AccountInfo) : List Nat :=
  info.code.getD []

/-- Modelled from the spec: keccak-256 as an abstract code hash (the real
hash lives outside `src/`); the only property the load path relies on is
that the hash of the empty byte sequence is `KECCAK_EMPTY` and that
non-empty code hashes differ from it. -/
def keccak (bs : List Nat) : Nat :=
  if bs = [] then KECCAK_EMPTY
  else KECCAK_EMPTY + 1 + bs.foldl (fun h b => h * 256 + b) 1

/-- Modelled from the spec: `dump_state` (in `ProviderData`, not under
`src/`) serializes one resolved account into a `StateAccount`: balance,
nonce, resolved code bytes, and the storage slot values. -/
def dumpAccount (acct : Account) : StateAccount :=
  { balance := acct.info.balance
    nonce := acct.info.nonce
    code := resolvedCode acct.info
    storage := acct.storage.map (fun p => (p.1, p.2.value)) }

/-- Modelled from the spec: `dump_state` over a whole diff — one
`StateAccount` per stored address. -/
def dumpState (d : StateDiff) : StateDump :=
  ⟨d.inner.map (fun p => (p.1, dumpAccount p.2))⟩

/-- Modelled from the spec: the `AccountInfo` that `load_state` (in
`ProviderData`, not under `src/`) reconstructs from one dumped account:
balance and nonce copied, code hash recomputed from the code bytes, code
present only when non-empty. -/
def mkLoadInfo (sa : StateAccount) : AccountInfo :=
  { balance := sa.balance
    nonce := sa.nonce
    code_hash := keccak sa.code
    code := if sa.code = [] then none else some sa.code }

/-- Modelled from the spec: the merge-engine calls `load_state` issues for
one dumped account — one `apply_account_change` with the resolved info, then
one `apply_storage_change` per storage entry. -/
def accountLoadOps (a : Nat) (sa : StateAccount) : List DiffOp :=
  DiffOp.accountChange a (mkLoadInfo sa) ::
    sa.storage.map (fun p => DiffOp.storageChange a p.1 ⟨p.2⟩ none)

/-- The load ops of a list of dumped accounts, in order. -/
def loadOpsL (l : List (Nat × StateAccount)) : List DiffOp :=
  l.foldr (fun p acc => accountLoadOps p.1 p.2 ++ acc) []

/-- Modelled from the spec: `load_state` — replay every dumped account
through the merge engine, starting from an empty diff. -/
def loadState (dump : StateDump) : StateDiff :=
  applyOps StateDiff.empty (loadOpsL dump.accounts)

theorem loadOpsL_append (l₁ l₂ : List (Nat × StateAccount)) :
    loadOpsL (l₁ ++ l₂) = loadOpsL l₁ ++ loadOpsL l₂ := by
  induction l₁ with
  | nil => rfl
  | cons p rest ih =>
      show accountLoadOps p.1 p.2 ++ loadOpsL (rest ++ l₂) = _
      rw [ih]
      simp [loadOpsL]

theorem accountLoadOps_address (b : Nat) (sa : StateAccount) (o : DiffOp)
    (h : o ∈ accountLoadOps b sa) : o.address = b := by
  rcases List.mem_cons.mp h with h | h
  · subst h
    rfl
  · obtain ⟨p, _, hp⟩ := List.mem_map.mp h
    rw [← hp]
    rfl

theorem loadOpsL_address (l : List (Nat × StateAccount)) (o : DiffOp)
    (h : o ∈ loadOpsL l) : o.address ∈ l.map Prod.fst := by
  induction l with
  | nil => cases h
  | cons p rest ih =>
      rcases List.mem_append.mp h with h | h
      · simp [accountLoadOps_address p.1 p.2 o h]
      · simp only [List.map_cons, List.mem_cons]
        exact Or.inr (ih h)

theorem dumpState_keys (l : List (Nat × Account)) :
    (l.map (fun p => (p.1, dumpAccount p.2))).map Prod.fst =
      l.map Prod.fst := by
  induction l with
  | nil => rfl
  | cons p rest ih => simp [ih]

theorem replay_storage (es : List (Nat × Nat)) (a : Nat) (d : StateDiff)
    (acct : Account) (h : lookupA d.inner a = some acct) :
    lookupA (applyOps d
        (es.map (fun p => DiffOp.storageChange a p.1 ⟨p.2⟩ none))).inner a =
      some { acct with
        storage := es.foldl (fun m p => setA m p.1 ⟨p.2⟩) acct.storage } := by
  induction es generalizing d acct with
  | nil => exact h
  | cons p rest ih =>
      have h₁ : lookupA (applyOp d
          (DiffOp.storageChange a p.1 ⟨p.2⟩ none)).inner a =
          some { acct with storage := setA acct.storage p.1 ⟨p.2⟩ } := by
        rw [show applyOp d (DiffOp.storageChange a p.1 ⟨p.2⟩ none) =
            d.apply_storage_change a p.1 ⟨p.2⟩ none from rfl,
          asc_lookup_self, h]
        rfl
      exact ih (applyOp d (DiffOp.storageChange a p.1 ⟨p.2⟩ none)) _ h₁

theorem lookupA_foldl_setA_not_mem {V : Type} (es : List (Nat × Nat))
    (g : Nat → V) (m : List (Nat × V)) (k : Nat)
    (h : k ∉ es.map Prod.fst) :
    lookupA (es.foldl (fun acc p => setA acc p.1 (g p.2)) m) k =
      lookupA m k := by
  induction es generalizing m with
  | nil => rfl
  | cons p rest ih =>
      simp only [List.map_cons, List.mem_cons, not_or] at h
      rw [show (p :: rest).foldl (fun acc q => setA acc q.1 (g q.2)) m =
          rest.foldl (fun acc q => setA acc q.1 (g q.2))
            (setA m p.1 (g p.2)) from rfl,
        ih _ h.2, lookupA_setA_ne _ _ _ _ h.1]

theorem lookupA_foldl_setA {V : Type} (es : List (Nat × Nat)) (g : Nat → V)
    (m : List (Nat × V)) (k : Nat) (hnd : (es.map Prod.fst).Nodup) :
    lookupA (es.foldl (fun acc p => setA acc p.1 (g p.2)) m) k =
      match lookupA es k with
      | some v => some (g v)
      | none => lookupA m k := by
  induction es generalizing m with
  | nil => rfl
  | cons p rest ih =>
      simp only [List.map_cons, List.nodup_cons] at hnd
      by_cases hk : p.1 = k
      · rw [show (p :: rest).foldl (fun acc q => setA acc q.1 (g q.2)) m =
            rest.foldl (fun acc q => setA acc q.1 (g q.2))
              (setA m p.1 (g p.2)) from rfl,
          lookupA_foldl_setA_not_mem rest g _ k (hk ▸ hnd.1), hk,
          lookupA_setA_self]
        simp [lookupA, hk]
      · rw [show (p :: rest).foldl (fun acc q => setA acc q.1 (g q.2)) m =
            rest.foldl (fun acc q => setA acc q.1 (g q.2))
              (setA m p.1 (g p.2)) from rfl,
          ih _ hnd.2]
        cases hres : lookupA rest k with
        | some v => simp [lookupA, hk, hres]
        | none =>
            simp only [lookupA, if_neg hk, hres]
            exact lookupA_setA_ne _ _ _ _ (fun hh => hk hh.symm)

theorem load_account_lookup (d : StateDiff) (a : Nat) (sa : StateAccount)
    (h : lookupA d.inner a = none) :
    lookupA (applyOps d (accountLoadOps a sa)).inner a =
      some { info := mkLoadInfo sa
             storage := sa.storage.foldl (fun m p => setA m p.1 ⟨p.2⟩) []
             status :=
               if account_has_code (mkLoadInfo sa) then
                 AccountStatus.Created.union AccountStatus.Touched
               else
                 AccountStatus.Touched
             transaction_id := 0 } := by
  have h₁ : lookupA (applyOp d
      (DiffOp.accountChange a (mkLoadInfo sa))).inner a =
      some (aacAcct none (mkLoadInfo sa)) := by
    rw [show applyOp d (DiffOp.accountChange a (mkLoadInfo sa)) =
        d.apply_account_change a (mkLoadInfo sa) from rfl,
      aac_lookup_self, h]
  exact replay_storage sa.storage a
    (applyOp d (DiffOp.accountChange a (mkLoadInfo sa)))
    (aacAcct none (mkLoadInfo sa)) h₁

theorem resolvedCode_mkLoadInfo (sa : StateAccount) :
    resolvedCode (mkLoadInfo sa) = sa.code := by
  rw [mkLoadInfo, resolvedCode]
  by_cases h : sa.code = [] <;> simp [h]

theorem map_fst_map_value (l : List (Nat × EvmStorageSlot)) :
    (l.map (fun p => (p.1, p.2.value))).map Prod.fst = l.map Prod.fst := by
  induction l with
  | nil => rfl
  | cons p rest ih => simp [ih]

/-- C3: Dumping a well-formed `StateDiff` (unique address keys, unique
storage keys — the `HashMap` guarantees) to a `StateDump` of its resolved
account states and replaying that dump through `apply_account_change` and
`apply_storage_change` from empty reproduces, at every address, the resolved
balance, nonce, code, and storage of the original. -/
theorem c3_dump_load_round_trip (d : StateDiff)
    (hnd : (d.inner.map Prod.fst).Nodup)
    (hstor : ∀ p ∈ d.inner, (p.2.storage.map Prod.fst).Nodup)
    (a : Nat) :
    (lookupA d.inner a = none →
      lookupA (loadState (dumpState d)).inner a = none) ∧
    (∀ acct, lookupA d.inner a = some acct →
      ∃ acct', lookupA (loadState (dumpState d)).inner a = some acct' ∧
        acct'.info.balance = acct.info.balance ∧
        acct'.info.nonce = acct.info.nonce ∧
        resolvedCode acct'.info = resolvedCode acct.info ∧
        (∀ i, (lookupA acct'.storage i).map EvmStorageSlot.value =
          (lookupA acct.storage i).map EvmStorageSlot.value)) := by
  constructor
  · intro h
    have hka : a ∉ d.inner.map Prod.fst := (lookupA_eq_none_iff _ _).mp h
    have hframe : ∀ o ∈ loadOpsL (dumpState d).accounts,
        DiffOp.address o ≠ a := by
      intro o ho hoa
      have hin := loadOpsL_address _ o ho
      rw [show (dumpState d).accounts =
          d.inner.map (fun p => (p.1, dumpAccount p.2)) from rfl,
        dumpState_keys, hoa] at hin
      exact hka hin
    rw [loadState, applyOps_frame _ _ _ hframe]
    rfl
  · intro acct h
    obtain ⟨pre, post, hsplit, hpre⟩ := lookupA_some_decomp _ _ _ h
    have hnd' := hnd
    rw [hsplit, List.map_append] at hnd'
    have hpost : a ∉ post.map Prod.fst := by
      have h2 := (List.nodup_append.mp hnd').2.1
      rw [List.map_cons] at h2
      exact (List.nodup_cons.mp h2).1
    have hmem : (a, acct) ∈ d.inner := by
      rw [hsplit]
      exact List.mem_append_right _ (List.mem_cons_self _ _)
    have hsnd : ((dumpAccount acct).storage.map Prod.fst).Nodup := by
      have heq : (dumpAccount acct).storage.map Prod.fst =
          acct.storage.map Prod.fst := map_fst_map_value acct.storage
      rw [heq]
      exact hstor _ hmem
    have hops : loadOpsL (dumpState d).accounts =
        loadOpsL (pre.map (fun p => (p.1, dumpAccount p.2))) ++
          (accountLoadOps a (dumpAccount acct) ++
            loadOpsL (post.map (fun p => (p.1, dumpAccount p.2)))) := by
      rw [show (dumpState d).accounts =
          d.inner.map (fun p => (p.1, dumpAccount p.2)) from rfl,
        hsplit, List.map_append, List.map_cons, loadOpsL_append]
      rfl
    have h₁ : lookupA (applyOps StateDiff.empty
        (loadOpsL (pre.map (fun p => (p.1, dumpAccount p.2))))).inner a =
        none := by
      rw [applyOps_frame]
      · rfl
      · intro o ho hoa
        have hin := loadOpsL_address _ o ho
        rw [dumpState_keys, hoa] at hin
        exact hpre hin
    have h₂ := load_account_lookup
      (applyOps StateDiff.empty
        (loadOpsL (pre.map (fun p => (p.1, dumpAccount p.2)))))
      a (dumpAccount acct) h₁
    have hframe₃ : ∀ o ∈ loadOpsL (post.map (fun p => (p.1, dumpAccount p.2))),
        DiffOp.address o ≠ a := by
      intro o ho hoa
      have hin := loadOpsL_address _ o ho
      rw [dumpState_keys, hoa] at hin
      exact hpost hin
    have h₃ : lookupA (applyOps (applyOps (applyOps StateDiff.empty
        (loadOpsL (pre.map (fun p => (p.1, dumpAccount p.2)))))
          (accountLoadOps a (dumpAccount acct)))
            (loadOpsL (post.map (fun p => (p.1, dumpAccount p.2))))).inner a =
        some { info := mkLoadInfo (dumpAccount acct)
               storage := (dumpAccount acct).storage.foldl
                 (fun m p => setA m p.1 ⟨p.2⟩) []
               status :=
                 if account_has_code (mkLoadInfo (dumpAccount acct)) then
                   AccountStatus.Created.union AccountStatus.Touched
                 else
                   AccountStatus.Touched
               transaction_id := 0 } := by
      rw [applyOps_frame _ _ _ hframe₃]
      exact h₂
    rw [loadState, hops, applyOps_append, applyOps_append]
    refine ⟨_, h₃, rfl, rfl, resolvedCode_mkLoadInfo _, ?_⟩
    intro i
    have hst : lookupA ((dumpAccount acct).storage.foldl
        (fun m p => setA m p.1 ⟨p.2⟩) []) i =
        match lookupA (dumpAccount acct).storage i with
        | some v => some (⟨v⟩ : EvmStorageSlot)
        | none => none :=
      lookupA_foldl_setA _ (fun v => (⟨v⟩ : EvmStorageSlot)) [] i hsnd
    have hmap : lookupA (dumpAccount acct).storage i =
        (lookupA acct.storage i).map EvmStorageSlot.value :=
      lookupA_map_snd acct.storage EvmStorageSlot.value i
    show (lookupA ((dumpAccount acct).storage.foldl
        (fun m p => setA m p.1 ⟨p.2⟩) []) i).map EvmStorageSlot.value =
      (lookupA acct.storage i).map EvmStorageSlot.value
    rw [hst, hmap]
    cases lookupA acct.storage i <;> rfl

/-- A sample contract account for the round-trip witness. -/
def roundAcct : Account :=
  { info := infoWithCode, storage := [(0, ⟨42⟩), (3, ⟨9⟩)]
    status := { touched := true, created := true }, transaction_id := 0 }

/-- Witness for C3 at a concrete input. -/
theorem c3_dump_load_round_trip_witness :
    ((StateDiff.fromMap [(1, roundAcct)]).inner.map Prod.fst).Nodup ∧
    (∀ p ∈ (StateDiff.fromMap [(1, roundAcct)]).inner,
      (p.2.storage.map Prod.fst).Nodup) ∧
    ((lookupA (StateDiff.fromMap [(1, roundAcct)]).inner 1 = none →
      lookupA (loadState (dumpState
        (StateDiff.fromMap [(1, roundAcct)]))).inner 1 = none) ∧
    (∀ acct, lookupA (StateDiff.fromMap [(1, roundAcct)]).inner 1 =
        some acct →
      ∃ acct', lookupA (loadState (dumpState
          (StateDiff.fromMap [(1, roundAcct)]))).inner 1 = some acct' ∧
        acct'.info.balance = acct.info.balance ∧
        acct'.info.nonce = acct.info.nonce ∧
        resolvedCode acct'.info = resolvedCode acct.info ∧
        (∀ i, (lookupA acct'.storage i).map EvmStorageSlot.value =
          (lookupA acct.storage i).map EvmStorageSlot.value))) :=
  ⟨by decide, by decide,
    c3_dump_load_round_trip (StateDiff.fromMap [(1, roundAcct)]) (by decide)
      (by decide) 1⟩

end EdrState
